import Mathlib

/-!
# memcached-ui: the controller (`controller/controller.go`)

A shallow embedding of the controller of the memcached administration page,
and the properties of it that the specification states.

Go strings are byte sequences, so a `string` is a list of bytes here.  Go's
`int` is taken to be 64 bits wide.  A run-time panic of the Go program is an
`Except.error` of the embedding.
-/

namespace Controller

/-! ## Strings -/

/-- One byte of a Go string. -/
abbrev Byte := Fin 256

/-- A Go `string`: an immutable sequence of bytes. -/
abbrev GoString := List Byte

/-- The bytes of a string literal of the source file (Go source is UTF-8). -/
def str (s : String) : GoString := s.toUTF8.data.toList.map (fun b => b.val)

/-- The run-time faults the controller can raise. -/
inductive Panic where
  | indexOutOfRange
  | typeAssertion
  deriving DecidableEq, Repr

/-- A Go `map[string]T`, as an association list read by its first match. -/
abbrev GoMap (α : Type) := List (GoString × α)

/-- The comma-ok form `v, ok := m[k]`. -/
def GoMap.get? {α : Type} (m : GoMap α) (k : GoString) : Option α :=
  match m with
  | [] => none
  | (k', v) :: rest => if k = k' then some v else GoMap.get? rest k

/-- The plain form `m[k]` on a `map[string]string`: the empty string when absent. -/
def GoMap.index (m : GoMap GoString) (k : GoString) : GoString :=
  (m.get? k).getD []

/-! ## `fmt` verbs used by the controller -/

/-- One lowercase hexadecimal digit. -/
def hexDigit (n : Nat) : Byte :=
  if n % 16 < 10 then Fin.ofNat (48 + n % 16) else Fin.ofNat (87 + n % 16)

/-- Hexadecimal digits of `n`, most significant first, no leading zero. -/
def hexDigits : Nat → Nat → GoString
  | 0, _ => []
  | fuel + 1, n =>
    if n < 16 then [hexDigit n] else hexDigits fuel (n / 16) ++ [hexDigit (n % 16)]

/-- `fmt.Sprintf("%x", v)` for a `uint32` value `v`. -/
def sprintfHexUint32 (v : Nat) : GoString := hexDigits 8 (v % 2 ^ 32)

/-- `fmt.Sprintf("%x", b)` for a byte array `b`: two digits per byte. -/
def sprintfHexBytes (b : List Byte) : GoString :=
  b.flatMap (fun x => [hexDigit (x.val / 16), hexDigit (x.val % 16)])

/-- Decimal digits of `n`, most significant first. -/
def decDigits : Nat → Nat → GoString
  | 0, _ => []
  | fuel + 1, n =>
    if n < 10 then [Fin.ofNat (48 + n)] else decDigits fuel (n / 10) ++ [Fin.ofNat (48 + n % 10)]

/-- `fmt.Sprintf("%d", v)` for an `int`. -/
def sprintfDec (v : Int) : GoString :=
  if v < 0 then (45 : Byte) :: decDigits (v.natAbs + 1) v.natAbs
  else decDigits (v.natAbs + 1) v.natAbs

/-- The value a string of lowercase hexadecimal digits denotes. -/
def hexValue (s : GoString) : Nat :=
  s.foldl (fun acc c => acc * 16 + (if c.val < 58 then c.val - 48 else c.val - 87)) 0

/-- A byte in `[0-9a-f]`. -/
def isLowerHex (c : Byte) : Prop := (48 ≤ c.val ∧ c.val ≤ 57) ∨ (97 ≤ c.val ∧ c.val ≤ 102)

instance (c : Byte) : Decidable (isLowerHex c) := by unfold isLowerHex; infer_instance

/-! ## `hash/crc32` -/

/-- The reversed IEEE polynomial, `crc32.IEEE`. -/
def IEEE : Nat := 0xedb88320

/-- One step of the table construction: shift right, folding the polynomial in. -/
def crcStep (poly crc : Nat) : Nat :=
  if crc % 2 = 1 then (crc / 2) ^^^ poly else crc / 2

/-- Entry `i` of the table `crc32.MakeTable(poly)`. -/
def crcTableEntry (poly i : Nat) : Nat :=
  (crcStep poly ∘ crcStep poly ∘ crcStep poly ∘ crcStep poly ∘
   crcStep poly ∘ crcStep poly ∘ crcStep poly ∘ crcStep poly) i

/-- The byte-at-a-time update of `hash/crc32`. -/
def crcUpdate (poly crc : Nat) (p : List Byte) : Nat :=
  (p.foldl (fun c v => crcTableEntry poly ((c % 256) ^^^ v.val) ^^^ (c / 256))
    (crc ^^^ 0xffffffff)) ^^^ 0xffffffff

/-- `crc32.ChecksumIEEE(data)`. -/
def ChecksumIEEE (data : List Byte) : Nat := crcUpdate IEEE 0 data

/-! ## `crypto/md5` -/

/-- The sine-derived additive constants of MD5. -/
def md5K : List Nat :=
  [0xd76aa478, 0xe8c7b756, 0x242070db, 0xc1bdceee, 0xf57c0faf, 0x4787c62a, 0xa8304613, 0xfd469501,
   0x698098d8, 0x8b44f7af, 0xffff5bb1, 0x895cd7be, 0x6b901122, 0xfd987193, 0xa679438e, 0x49b40821,
   0xf61e2562, 0xc040b340, 0x265e5a51, 0xe9b6c7aa, 0xd62f105d, 0x02441453, 0xd8a1e681, 0xe7d3fbc8,
   0x21e1cde6, 0xc33707d6, 0xf4d50d87, 0x455a14ed, 0xa9e3e905, 0xfcefa3f8, 0x676f02d9, 0x8d2a4c8a,
   0xfffa3942, 0x8771f681, 0x6d9d6122, 0xfde5380c, 0xa4beea44, 0x4bdecfa9, 0xf6bb4b60, 0xbebfbc70,
   0x289b7ec6, 0xeaa127fa, 0xd4ef3085, 0x04881d05, 0xd9d4d039, 0xe6db99e5, 0x1fa27cf8, 0xc4ac5665,
   0xf4292244, 0x432aff97, 0xab9423a7, 0xfc93a039, 0x655b59c3, 0x8f0ccc92, 0xffeff47d, 0x85845dd1,
   0x6fa87e4f, 0xfe2ce6e0, 0xa3014314, 0x4e0811a1, 0xf7537e82, 0xbd3af235, 0x2ad7d2bb, 0xeb86d391]

/-- The per-round left-rotation amounts of MD5. -/
def md5S : List Nat :=
  [7, 12, 17, 22, 7, 12, 17, 22, 7, 12, 17, 22, 7, 12, 17, 22,
   5, 9, 14, 20, 5, 9, 14, 20, 5, 9, 14, 20, 5, 9, 14, 20,
   4, 11, 16, 23, 4, 11, 16, 23, 4, 11, 16, 23, 4, 11, 16, 23,
   6, 10, 15, 21, 6, 10, 15, 21, 6, 10, 15, 21, 6, 10, 15, 21]

/-- A 32-bit word. -/
def w32 (n : Nat) : Nat := n % 2 ^ 32

/-- Bitwise complement of a 32-bit word. -/
def not32 (n : Nat) : Nat := w32 n ^^^ 0xffffffff

/-- Left rotation of a 32-bit word. -/
def rotl32 (x s : Nat) : Nat := w32 (w32 x <<< s) ||| (w32 x >>> (32 - s))

/-- The four chaining words of MD5. -/
structure Md5State where
  a : Nat
  b : Nat
  c : Nat
  d : Nat
  deriving DecidableEq, Repr

/-- Little-endian word `g` of a 64-byte block. -/
def md5Word (block : List Byte) (g : Nat) : Nat :=
  (block.getD (4 * g) 0).val + (block.getD (4 * g + 1) 0).val * 2 ^ 8 +
  (block.getD (4 * g + 2) 0).val * 2 ^ 16 + (block.getD (4 * g + 3) 0).val * 2 ^ 24

/-- Round `i` of the MD5 compression function. -/
def md5Round (block : List Byte) (st : Md5State) (i : Nat) : Md5State :=
  let f :=
    if i < 16 then (st.b &&& st.c) ||| (not32 st.b &&& st.d)
    else if i < 32 then (st.d &&& st.b) ||| (not32 st.d &&& st.c)
    else if i < 48 then st.b ^^^ st.c ^^^ st.d
    else st.c ^^^ (st.b ||| not32 st.d)
  let g :=
    if i < 16 then i
    else if i < 32 then (5 * i + 1) % 16
    else if i < 48 then (3 * i + 5) % 16
    else (7 * i) % 16
  let t := w32 (f + st.a + md5K.getD i 0 + md5Word block g)
  { a := st.d, b := w32 (st.b + rotl32 t (md5S.getD i 0)), c := st.b, d := st.c }

/-- The compression of one 64-byte block into the chaining state. -/
def md5Block (st : Md5State) (block : List Byte) : Md5State :=
  let r := (List.range 64).foldl (md5Round block) st
  { a := w32 (st.a + r.a), b := w32 (st.b + r.b), c := w32 (st.c + r.c), d := w32 (st.d + r.d) }

/-- The compression of all blocks of a padded message. -/
def md5Blocks : Nat → Md5State → List Byte → Md5State
  | 0, st, _ => st
  | fuel + 1, st, msg => md5Blocks fuel (md5Block st (msg.take 64)) (msg.drop 64)

/-- The `k` low bytes of `n`, least significant first. -/
def leBytes : Nat → Nat → List Byte
  | 0, _ => []
  | k + 1, n => Fin.ofNat (n % 256) :: leBytes k (n / 256)

/-- MD5 padding: a one bit, zeros up to 56 modulo 64, the bit length. -/
def md5Pad (msg : List Byte) : List Byte :=
  msg ++ (0x80 : Byte) :: List.replicate ((55 + 64 - msg.length % 64) % 64) (0 : Byte) ++
    leBytes 8 (msg.length * 8 % 2 ^ 64)

/-- `md5.Sum(data)`: the 16-byte digest. -/
def md5Sum (data : List Byte) : List Byte :=
  let padded := md5Pad data
  let st := md5Blocks (padded.length / 64)
    { a := 0x67452301, b := 0xefcdab89, c := 0x98badcfe, d := 0x10325476 } padded
  leBytes 4 st.a ++ leBytes 4 st.b ++ leBytes 4 st.c ++ leBytes 4 st.d

/-! ## `strconv` and `strings` -/

/-- The two failures of `strconv`: `ErrSyntax` and `ErrRange`. -/
inductive NumError where
  | ErrSyntax
  | ErrRange
  deriving DecidableEq, Repr

/-- The largest `uint64`. -/
def maxUint64 : Nat := 2 ^ 64 - 1

/-- The digit loop of `strconv.ParseUint(s, 10, 64)`, `n` being the value so far. -/
def parseUintLoop : Nat → List Byte → Nat × Option NumError
  | n, [] => (n, none)
  | n, c :: rest =>
    if 48 ≤ c.val ∧ c.val ≤ 57 then
      if n ≥ maxUint64 / 10 + 1 then (maxUint64, some NumError.ErrRange)
      else if n * 10 + (c.val - 48) > maxUint64 then (maxUint64, some NumError.ErrRange)
      else parseUintLoop (n * 10 + (c.val - 48)) rest
    else (0, some NumError.ErrSyntax)

/-- `strconv.ParseUint(s, 10, 64)`. -/
def ParseUint (s : GoString) : Nat × Option NumError :=
  match s with
  | [] => (0, some NumError.ErrSyntax)
  | _ :: _ => parseUintLoop 0 s

/-- `strconv.ParseInt(s, 10, 0)` with a 64-bit `int`. -/
def ParseInt (s : GoString) : Int × Option NumError :=
  match s with
  | [] => (0, some NumError.ErrSyntax)
  | c :: rest =>
    let neg : Bool := c = 45
    let body := if c = 43 ∨ c = 45 then rest else s
    match ParseUint body with
    | (_, some NumError.ErrSyntax) => (0, some NumError.ErrSyntax)
    | (un, _) =>
      if !neg && un ≥ 2 ^ 63 then ((2 : Int) ^ 63 - 1, some NumError.ErrRange)
      else if neg && un > 2 ^ 63 then (-(2 : Int) ^ 63, some NumError.ErrRange)
      else (if neg then -(un : Int) else (un : Int), none)

/-- `strconv.Atoi(s)`: the value returned and the error, if any. -/
def Atoi (s : GoString) : Int × Option NumError := ParseInt s

/-- `strings.Split(s, sep)` for a one-byte separator. -/
def Split (s : GoString) (sep : Byte) : List GoString :=
  match s with
  | [] => [[]]
  | c :: rest =>
    if c = sep then [] :: Split rest sep
    else
      match Split rest sep with
      | [] => [[c]]
      | p :: ps => (c :: p) :: ps

/-! ## Statistics -/

/-- The view model of the statistics page. -/
structure StatsInfoStruct where
  Id : GoString
  Server : GoString
  Pid : GoString
  Version : GoString
  Uptime : GoString
  MaxMemoryLimit : GoString
  CurrMemoryUsage : GoString
  CurrItems : GoString
  CurrConnections : GoString
  GetHits : GoString
  GetMisses : GoString
  deriving DecidableEq, Repr

/-- The uptime in days, hours, minutes and seconds: `formatUptime`. -/
def formatUptime (uptime : Int) : GoString :=
  let day := uptime.tdiv 86400
  let hour := (uptime.tmod 86400).tdiv 3600
  let minute := (uptime.tmod 3600).tdiv 60
  let second := uptime.tmod 60
  sprintfDec day ++ str "天" ++ sprintfDec hour ++ str "时" ++
    sprintfDec minute ++ str "分" ++ sprintfDec second ++ str "秒"

/-- The number of binary digits of `m`. -/
def bitLen : Nat → Nat → Nat
  | 0, _ => 0
  | fuel + 1, m => if m = 0 then 0 else bitLen fuel (m / 2) + 1

/-- The magnitude of `float32(n)` for an integer of magnitude `m`: `m` rounded to
24 significant bits, ties to even. -/
def roundFloat32 (m : Nat) : Nat :=
  let len := bitLen (m + 1) m
  if len ≤ 24 then m
  else
    let sh := len - 24
    let q := m / 2 ^ sh
    let r := m % 2 ^ sh
    let q1 := if 2 * r > 2 ^ sh ∨ (2 * r = 2 ^ sh ∧ q % 2 = 1) then q + 1 else q
    q1 * 2 ^ sh

/-- The verb `%.2f` applied to the float of sign `neg` and magnitude `num / den`:
the exact value rounded to two decimals, ties to even. -/
def sprintfFixed2 (neg : Bool) (num den : Nat) : GoString :=
  let q := num * 100 / den
  let r := num * 100 % den
  let q1 := if 2 * r > den ∨ (2 * r = den ∧ q % 2 = 1) then q + 1 else q
  (if neg then [(45 : Byte)] else []) ++ decDigits (q1 / 100 + 1) (q1 / 100) ++
    [(46 : Byte), Fin.ofNat (48 + q1 / 10 % 10), Fin.ofNat (48 + q1 % 10)]

/-- The memory figure in megabytes and kilobytes: `formatMemoryUsage`.  Both
divisions by 1024 are exact in `float32`. -/
def formatMemoryUsage (usageBytes : Int) : GoString :=
  let neg : Bool := usageBytes < 0
  let f := roundFloat32 usageBytes.natAbs
  sprintfFixed2 neg f (1024 * 1024) ++ str "MB (" ++ sprintfFixed2 neg f 1024 ++ str "KB)"

/-- The statistics of a server as the page shows them: `statsMap2Struct`. -/
def statsMap2Struct (statsMapper : GoMap GoString) : StatsInfoStruct :=
  let uptime := (Atoi (statsMapper.index (str "uptime"))).1
  let maxMemoryLimit := (Atoi (statsMapper.index (str "limit_maxbytes"))).1
  let currMemoryUsage := (Atoi (statsMapper.index (str "bytes"))).1
  { Id := []
    Server := []
    Pid := statsMapper.index (str "pid")
    Version := statsMapper.index (str "version")
    Uptime := formatUptime uptime
    MaxMemoryLimit := formatMemoryUsage maxMemoryLimit
    CurrMemoryUsage := formatMemoryUsage currMemoryUsage
    CurrItems := statsMapper.index (str "curr_items")
    CurrConnections := statsMapper.index (str "curr_connections")
    GetHits := statsMapper.index (str "get_hits")
    GetMisses := statsMapper.index (str "get_misses") }

/-! ## Configuration (package `config`) -/

/-- The Yii settings of one server: `config.YiiConfigStruct`. -/
structure YiiConfigStruct where
  Status : GoString
  AppName : GoString
  Hash : GoString
  deriving DecidableEq, Repr

/-- The settings of one server, the values of `AppConfigStruct.Servers`. -/
structure ServerConfigStruct where
  Alias : GoString
  Yii : YiiConfigStruct
  deriving DecidableEq, Repr

/-- The application configuration: `config.AppConfigStruct`. -/
structure AppConfigStruct where
  Servers : GoMap ServerConfigStruct
  deriving Repr

/-! ## `genYiiKey` -/

/-- The key Yii stores a value under: `genYiiKey`. -/
def genYiiKey (key : GoString) (yiiConf : YiiConfigStruct) : GoString :=
  let innerKey := sprintfHexUint32 (ChecksumIEEE yiiConf.AppName) ++ key
  if yiiConf.Hash = str "yes" then sprintfHexBytes (md5Sum innerKey) else innerKey

/-! ## The collaborators of the controller

The packages `memcached` and `phpunserialize`, and `encoding/json`, are used by
the controller through their interfaces only; their behaviour is a parameter.
-/

/-- A dynamically typed Go value, `interface{}`, as the parser and the JSON
decoder produce it. -/
inductive Value where
  | null
  | bool (b : Bool)
  | int (i : Int)
  | float (bits : Nat)
  | string (s : GoString)
  | slice (xs : List Value)
  | map (kvs : List (GoString × Value))

/-- The argument of `Memcached.Set`: `memcached.StorageCmdArgStruct`. -/
structure StorageCmdArgStruct where
  key : GoString
  value : GoString
  expire_time : Int
  deriving DecidableEq, Repr

/-- A call the controller makes on one of its collaborators. -/
inductive Event where
  | New (host : GoString) (port : Int)
  | Get (key : GoString)
  | Set (args : StorageCmdArgStruct)
  | Delete (key : GoString)
  | FlushAll
  | Close
  | Parse (input : GoString)
  | Unmarshal (input : GoString)
  deriving DecidableEq, Repr

/-- The behaviour of the collaborators over a state `σ` of the outside world
(the cache server and the connection to it).  An error is its message. -/
structure Env (σ : Type) where
  New : GoString → Int → σ → Option GoString × σ
  Get : GoString → σ → Except GoString GoString × σ
  Set : StorageCmdArgStruct → σ → Except GoString GoString × σ
  Delete : GoString → σ → Except GoString GoString × σ
  FlushAll : σ → Except GoString GoString × σ
  Close : σ → σ
  Parse : GoString → Except Panic Value
  Unmarshal : GoString → Option Value

/-- The request as the controller reads it: the configuration stored in the
context and the posted form (the first value of each field). -/
structure Context where
  app_conf : AppConfigStruct
  postForm : GoMap GoString

/-- The field `key` of the form, empty when absent: `c.PostForm(key)`. -/
def Context.PostForm (c : Context) (key : GoString) : GoString :=
  (c.postForm.get? key).getD []

/-- The field `key` of the form, `defaultValue` when absent: `c.DefaultPostForm`. -/
def Context.DefaultPostForm (c : Context) (key defaultValue : GoString) : GoString :=
  (c.postForm.get? key).getD defaultValue

/-- The JSON body written by `c.JSON`: `status` with `msg` or `data`. -/
inductive Response where
  | failure (msg : GoString)
  | success (data : Value)

/-- What a handler leaves behind: the body written (none when nothing was
written) or the panic raised, the calls made in order, and the outside world. -/
structure Outcome (σ : Type) where
  response : Except Panic (Option Response)
  trace : List Event
  world : σ

/-! ## The controller -/

/-- The commands the page may issue. -/
def actionAllowed : List GoString := [str "get", str "set", str "delete", str "flush_all"]

/-- Whether a command is one of `actionAllowed`: `validAction`. -/
def validAction (targetAction : GoString) : Bool :=
  actionAllowed.any (fun action => targetAction = action)

/-- A connection to `server`: `newMemcached`.  The result is the error of
`m.New`, the calls made and the outside world, or the panic of the indexing. -/
def newMemcached {σ : Type} (env : Env σ) (server : GoString) (w : σ) :
    Except Panic (Option GoString × List Event × σ) :=
  let serverParts := Split server 58
  match serverParts[0]? with
  | none => Except.error Panic.indexOutOfRange
  | some host =>
    match serverParts[1]? with
    | none => Except.error Panic.indexOutOfRange
    | some portText =>
      let port := (Atoi portText).1
      let r := env.New host port w
      Except.ok (r.1, [Event.New host port], r.2)

/-- The Yii step of the `get` branch, lines 195 to 200: the JSON text in the
first element of a two-element array is replaced by its decoded form. -/
def extractYiiJson {σ : Type} (env : Env σ) (useYii : Bool) (data : Value) :
    Except Panic (Value × List Event) :=
  if useYii then
    match data with
    | Value.slice xs =>
      if xs.length = 2 then
        match xs with
        | [] => Except.error Panic.indexOutOfRange
        | first :: rest =>
          match first with
          | Value.string s =>
            match s with
            | [] => Except.error Panic.indexOutOfRange
            | c :: _ =>
              if c = 123 then
                match env.Unmarshal s with
                | some v => Except.ok (Value.slice (v :: rest), [Event.Unmarshal s])
                | none => Except.ok (data, [Event.Unmarshal s])
              else Except.ok (data, [])
          | _ => Except.error Panic.typeAssertion
      else Except.ok (data, [])
    | _ => Except.error Panic.typeAssertion
  else Except.ok (data, [])

/-- The decoding of a `get` response, lines 190 to 203. -/
def decodeGet {σ : Type} (env : Env σ) (useYii : Bool) (resp : GoString) :
    Except Panic Value × List Event :=
  if resp.length > 2 ∧ resp[0]? = some 97 ∧ resp[1]? = some 58 then
    match env.Parse resp with
    | Except.error p => (Except.error p, [Event.Parse resp])
    | Except.ok data =>
      match extractYiiJson env useYii data with
      | Except.error p => (Except.error p, [Event.Parse resp])
      | Except.ok (data1, evs) => (Except.ok data1, Event.Parse resp :: evs)
  else (Except.ok (Value.string resp), [])

/-- The handler of a posted command: `Do`. -/
def Do {σ : Type} (env : Env σ) (c : Context) (w : σ) : Outcome σ :=
  let ac := c.app_conf
  let targetServer := c.PostForm (str "server")
  match ac.Servers.get? targetServer with
  | none => ⟨Except.ok (some (Response.failure (str "不存在目标Memcached服务"))), [], w⟩
  | some targetServerConfig =>
    let targetAction := c.PostForm (str "action")
    if validAction targetAction = false then
      ⟨Except.ok (some (Response.failure (str "不存在目标action"))), [], w⟩
    else
      match newMemcached env targetServer w with
      | Except.error p => ⟨Except.error p, [], w⟩
      | Except.ok (some err, evs, w1) =>
        ⟨Except.ok (some (Response.failure (str "目标Memcached服务连接失败：" ++ err))), evs, w1⟩
      | Except.ok (none, evs, w1) =>
        let useYii : Bool := targetServerConfig.Yii.Status = str "on"
        if targetAction = str "get" then
          let key := c.PostForm (str "key")
          let key := if useYii then genYiiKey key targetServerConfig.Yii else key
          let r := env.Get key w1
          match r.1 with
          | Except.error e =>
            ⟨Except.ok (some (Response.failure (str "获取缓存数据失败：" ++ e))),
              evs ++ [Event.Get key, Event.Close], env.Close r.2⟩
          | Except.ok resp =>
            let d := decodeGet env useYii resp
            ⟨d.1.map (fun data => some (Response.success data)),
              evs ++ Event.Get key :: d.2 ++ [Event.Close], env.Close r.2⟩
        else if targetAction = str "set" then
          let key := c.PostForm (str "key")
          let key := if useYii then genYiiKey key targetServerConfig.Yii else key
          let value := c.PostForm (str "value")
          let expTime := c.DefaultPostForm (str "exp_time") (str "0")
          let a := Atoi expTime
          let expTimeInt := if a.2 ≠ none then 0 else a.1
          let r := env.Set ⟨key, value, expTimeInt⟩ w1
          match r.1 with
          | Except.error e =>
            ⟨Except.ok (some (Response.failure (str "添加缓存失败：" ++ e))),
              evs ++ [Event.Set ⟨key, value, expTimeInt⟩, Event.Close], env.Close r.2⟩
          | Except.ok resp =>
            ⟨Except.ok (some (Response.success (Value.string resp))),
              evs ++ [Event.Set ⟨key, value, expTimeInt⟩, Event.Close], env.Close r.2⟩
        else if targetAction = str "delete" then
          let key := c.PostForm (str "key")
          let key := if useYii then genYiiKey key targetServerConfig.Yii else key
          let r := env.Delete key w1
          match r.1 with
          | Except.error e =>
            ⟨Except.ok (some (Response.failure (str "删除缓存失败：" ++ e))),
              evs ++ [Event.Delete key, Event.Close], env.Close r.2⟩
          | Except.ok resp =>
            ⟨Except.ok (some (Response.success (Value.string resp))),
              evs ++ [Event.Delete key, Event.Close], env.Close r.2⟩
        else if targetAction = str "flush_all" then
          let r := env.FlushAll w1
          match r.1 with
          | Except.error e =>
            ⟨Except.ok (some (Response.failure (str "清空缓存失败：" ++ e))),
              evs ++ [Event.FlushAll, Event.Close], env.Close r.2⟩
          | Except.ok resp =>
            ⟨Except.ok (some (Response.success (Value.string resp))),
              evs ++ [Event.FlushAll, Event.Close], env.Close r.2⟩
        else ⟨Except.ok none, evs ++ [Event.Close], env.Close w1⟩

/-! ## The specification's vocabulary -/

/-- A command sent to the cache server, as against the other calls. -/
def Event.isCommand : Event → Bool
  | Event.Get _ => true
  | Event.Set _ => true
  | Event.Delete _ => true
  | Event.FlushAll => true
  | _ => false

/-- A call of the serialized-value parser, as against the other calls. -/
def Event.isParse : Event → Bool
  | Event.Parse _ => true
  | _ => false

/-- The key the specification has every command use: the Yii key when the Yii mode
of the server is on, the key of the form otherwise. -/
def specKey (cfg : ServerConfigStruct) (key : GoString) : GoString :=
  if cfg.Yii.Status = str "on" then genYiiKey key cfg.Yii else key



/-- A decimal digit. -/
def isDigit (c : Byte) : Bool := 48 ≤ c.val ∧ c.val ≤ 57

/-- The number a sequence of decimal digits denotes. -/
def digitsValue (ds : List Byte) : Nat := ds.foldl (fun acc c => acc * 10 + (c.val - 48)) 0

/-- A decimal integer: an optional sign and at least one digit, nothing else. -/
def isDecimalInt (s : GoString) : Bool :=
  match s with
  | [] => false
  | c :: rest =>
    if c = 43 ∨ c = 45 then rest ≠ [] ∧ rest.all isDigit else s.all isDigit

/-- The integer a decimal integer denotes. -/
def decimalValue (s : GoString) : Int :=
  match s with
  | [] => 0
  | c :: rest =>
    if c = 45 then -(digitsValue rest : Int)
    else if c = 43 then (digitsValue rest : Int)
    else (digitsValue s : Int)

/-! ## Sample collaborators and requests -/

/-- A collaborator that always succeeds with empty answers, over a trivial world. -/
def quietEnv : Env Unit :=
  { New := fun _ _ w => (none, w)
    Get := fun _ w => (Except.ok [], w)
    Set := fun _ w => (Except.ok [], w)
    Delete := fun _ w => (Except.ok [], w)
    FlushAll := fun w => (Except.ok [], w)
    Close := fun w => w
    Parse := fun _ => Except.ok Value.null
    Unmarshal := fun _ => none }

/-- A collaborator whose `Get` always answers `resp` and whose parser always
returns `parsed`, over a trivial world. -/
def cannedEnv (resp : GoString) (parsed : Value) : Env Unit :=
  { New := fun _ _ w => (none, w)
    Get := fun _ w => (Except.ok resp, w)
    Set := fun _ w => (Except.ok [], w)
    Delete := fun _ w => (Except.ok [], w)
    FlushAll := fun w => (Except.ok [], w)
    Close := fun w => w
    Parse := fun _ => Except.ok parsed
    Unmarshal := fun _ => none }

/-- A posted `get` of the key `k` on the server `localhost:11211`. -/
def getForm : GoMap GoString :=
  [(str "server", str "localhost:11211"), (str "action", str "get"), (str "key", str "k")]

/-- A posted `set` of the key `k` to the value `v` on the server `localhost:11211`,
with the given `exp_time` field. -/
def setForm (expTime : GoString) : GoMap GoString :=
  [(str "server", str "localhost:11211"), (str "action", str "set"), (str "key", str "k"),
    (str "value", str "v"), (str "exp_time", expTime)]

/-- The request `c` with its `exp_time` field set to `0`. -/
def withZeroExpiry (c : Context) : Context :=
  { app_conf := c.app_conf, postForm := (str "exp_time", str "0") :: c.postForm }

/-- A configuration with one server, `localhost:11211`, and the given Yii settings. -/
def oneServer (yii : YiiConfigStruct) : AppConfigStruct :=
  { Servers := [(str "localhost:11211", { Alias := str "local", Yii := yii })] }

/-! ## Hexadecimal rendering -/

theorem hexDigit_val (n : Nat) :
    (hexDigit n).val = if n % 16 < 10 then 48 + n % 16 else 87 + n % 16 := by
  unfold hexDigit
  have h : n % 16 < 16 := Nat.mod_lt _ (by decide)
  split <;> simp [Fin.ofNat] <;> omega

theorem hexDigit_isLowerHex (n : Nat) : isLowerHex (hexDigit n) := by
  unfold isLowerHex
  rw [hexDigit_val]
  have h : n % 16 < 16 := Nat.mod_lt _ (by decide)
  split <;> omega

theorem hexDigits_isLowerHex (fuel n : Nat) : ∀ c ∈ hexDigits fuel n, isLowerHex c := by
  induction fuel generalizing n with
  | zero => intro c hc; simp [hexDigits] at hc
  | succ f ih =>
    intro c hc
    unfold hexDigits at hc
    split at hc
    · simp at hc; subst hc; exact hexDigit_isLowerHex n
    · rw [List.mem_append] at hc
      rcases hc with hc | hc
      · exact ih _ c hc
      · simp at hc; subst hc; exact hexDigit_isLowerHex _

theorem hexValue_append (s : GoString) (c : Byte) :
    hexValue (s ++ [c]) = hexValue s * 16 + (if c.val < 58 then c.val - 48 else c.val - 87) := by
  simp [hexValue, List.foldl_append]

theorem hexDigit_decode (n : Nat) :
    (if (hexDigit n).val < 58 then (hexDigit n).val - 48 else (hexDigit n).val - 87) = n % 16 := by
  rw [hexDigit_val]
  have h : n % 16 < 16 := Nat.mod_lt _ (by decide)
  split <;> split <;> omega

theorem hexValue_hexDigits (fuel n : Nat) (h : n < 16 ^ fuel) :
    hexValue (hexDigits fuel n) = n := by
  induction fuel generalizing n with
  | zero => simp at h; subst h; simp [hexDigits, hexValue]
  | succ f ih =>
    unfold hexDigits
    split
    · rename_i h16
      have := hexDigit_decode n
      simp only [hexValue, List.foldl_cons, List.foldl_nil, Nat.zero_mul, Nat.zero_add]
      rw [this]; omega
    · rw [hexValue_append, hexDigit_decode, ih (n / 16)]
      · omega
      · rw [Nat.pow_succ] at h
        exact Nat.div_lt_of_lt_mul (by rw [Nat.mul_comm]; exact h)

theorem hexDigits_length_le (fuel n : Nat) : (hexDigits fuel n).length ≤ fuel := by
  induction fuel generalizing n with
  | zero => simp [hexDigits]
  | succ f ih =>
    unfold hexDigits
    split
    · simp
    · simp; exact ih _

theorem hexDigits_length_pos (fuel n : Nat) : 1 ≤ (hexDigits (fuel + 1) n).length := by
  unfold hexDigits
  split <;> simp

theorem hexDigits_head (fuel n : Nat) (h : n < 16 ^ fuel) (hn : 0 < n) :
    (hexDigits fuel n).head? ≠ some 48 := by
  induction fuel generalizing n with
  | zero => simp at h; omega
  | succ f ih =>
    unfold hexDigits
    split
    · rename_i h16
      simp only [List.head?_cons, ne_eq, Option.some.injEq]
      intro hc
      have hv : (hexDigit n).val = 48 := by rw [hc]; rfl
      rw [hexDigit_val] at hv
      have h2 : n % 16 = n := Nat.mod_eq_of_lt h16
      rw [h2] at hv
      split at hv <;> omega
    · rename_i h16
      have hlt : n / 16 < 16 ^ f := by
        rw [Nat.pow_succ] at h
        exact Nat.div_lt_of_lt_mul (by rw [Nat.mul_comm]; exact h)
      have hpos : 0 < n / 16 := by omega
      have := ih (n / 16) hlt hpos
      cases hd : hexDigits f (n / 16) with
      | nil =>
        have := hexDigits_length_pos
        cases f with
        | zero => simp at hlt; omega
        | succ f' =>
          have := hexDigits_length_pos f' (n / 16)
          rw [hd] at this; simp at this
      | cons a t =>
        rw [hd] at this
        simpa using this

/-! ## The checksum and the digest -/

theorem crcStep_lt (poly crc : Nat) (hp : poly < 2 ^ 32) (hc : crc < 2 ^ 32) :
    crcStep poly crc < 2 ^ 32 := by
  unfold crcStep
  split
  · exact Nat.xor_lt_two_pow (by omega) hp
  · omega

theorem crcTableEntry_lt (poly i : Nat) (hp : poly < 2 ^ 32) (hi : i < 2 ^ 32) :
    crcTableEntry poly i < 2 ^ 32 := by
  unfold crcTableEntry
  simp only [Function.comp]
  repeat first | exact hi | apply crcStep_lt _ _ hp

theorem crcFold_lt (poly : Nat) (hp : poly < 2 ^ 32) (p : List Byte) (c : Nat) (hc : c < 2 ^ 32) :
    p.foldl (fun c v => crcTableEntry poly ((c % 256) ^^^ v.val) ^^^ (c / 256)) c < 2 ^ 32 := by
  induction p generalizing c with
  | nil => simpa using hc
  | cons v rest ih =>
    simp only [List.foldl_cons]
    apply ih
    apply Nat.xor_lt_two_pow
    · apply crcTableEntry_lt _ _ hp
      have h1 : c % 256 < 2 ^ 8 := Nat.mod_lt _ (by decide)
      have h2 : v.val < 2 ^ 8 := v.isLt
      have := @Nat.xor_lt_two_pow (c % 256) v.val 8 h1 h2
      omega
    · omega

theorem ChecksumIEEE_lt (data : List Byte) : ChecksumIEEE data < 2 ^ 32 := by
  unfold ChecksumIEEE crcUpdate
  apply Nat.xor_lt_two_pow
  · apply crcFold_lt _ (by decide)
    exact Nat.xor_lt_two_pow (by decide) (by decide)
  · decide

theorem leBytes_length (k n : Nat) : (leBytes k n).length = k := by
  induction k generalizing n with
  | zero => rfl
  | succ k ih => simp [leBytes, ih]

theorem md5Sum_length (data : List Byte) : (md5Sum data).length = 16 := by
  simp [md5Sum, leBytes_length]

theorem sprintfHexBytes_length (b : List Byte) : (sprintfHexBytes b).length = 2 * b.length := by
  induction b with
  | nil => rfl
  | cons x rest ih =>
    simp only [sprintfHexBytes, List.flatMap_cons, List.length_append, List.length_cons,
      List.length_nil] at ih ⊢
    omega

theorem sprintfHexBytes_isLowerHex (b : List Byte) : ∀ c ∈ sprintfHexBytes b, isLowerHex c := by
  intro c hc
  simp only [sprintfHexBytes, List.mem_flatMap, List.mem_cons, List.mem_singleton] at hc
  rcases hc with ⟨x, _, hx⟩
  simp at hx
  rcases hx with hx | hx <;> subst hx <;> exact hexDigit_isLowerHex _

set_option maxRecDepth 100000 in
/-- The check value of CRC-32/IEEE. -/
theorem ChecksumIEEE_check : ChecksumIEEE (str "123456789") = 0xcbf43926 := by decide

set_option maxRecDepth 100000 in
/-- The MD5 test vectors of RFC 1321 for the empty string and for `abc`. -/
theorem md5Sum_check :
    sprintfHexBytes (md5Sum (str "")) = str "d41d8cd98f00b204e9800998ecf8427e" ∧
    sprintfHexBytes (md5Sum (str "abc")) = str "900150983cd24fb0d6963f7d28e17f72" := by
  constructor <;> decide

/-! ## Claims on `genYiiKey` -/

/-- C1. With the secondary hash off (`Hash` other than `yes`) the result of `genYiiKey`
is the `%x` rendering of the CRC-32 (IEEE) checksum of `AppName` followed by the key
unchanged.  The rendering has one to eight digits in `[0-9a-f]`, denotes the
checksum, and has no leading zero; the result depends on the key and `AppName` only,
and for a fixed `AppName` different keys give different results. -/
theorem genYiiKey_plain (key : GoString) (yiiConf : YiiConfigStruct)
    (h : yiiConf.Hash ≠ str "yes") :
    genYiiKey key yiiConf = sprintfHexUint32 (ChecksumIEEE yiiConf.AppName) ++ key ∧
    (∀ c ∈ sprintfHexUint32 (ChecksumIEEE yiiConf.AppName), isLowerHex c) ∧
    hexValue (sprintfHexUint32 (ChecksumIEEE yiiConf.AppName)) = ChecksumIEEE yiiConf.AppName ∧
    1 ≤ (sprintfHexUint32 (ChecksumIEEE yiiConf.AppName)).length ∧
    (sprintfHexUint32 (ChecksumIEEE yiiConf.AppName)).length ≤ 8 ∧
    (0 < ChecksumIEEE yiiConf.AppName →
      (sprintfHexUint32 (ChecksumIEEE yiiConf.AppName)).head? ≠ some 48) ∧
    (∀ other : YiiConfigStruct, other.Hash ≠ str "yes" → other.AppName = yiiConf.AppName →
      genYiiKey key other = genYiiKey key yiiConf) ∧
    (∀ key2 : GoString, key2 ≠ key → genYiiKey key2 yiiConf ≠ genYiiKey key yiiConf) := by
  have hlt := ChecksumIEEE_lt yiiConf.AppName
  have hmod : ChecksumIEEE yiiConf.AppName % 2 ^ 32 = ChecksumIEEE yiiConf.AppName :=
    Nat.mod_eq_of_lt hlt
  have hplain : ∀ (k : GoString) (y : YiiConfigStruct), y.Hash ≠ str "yes" →
      genYiiKey k y = sprintfHexUint32 (ChecksumIEEE y.AppName) ++ k := by
    intro k y hy
    simp [genYiiKey, hy]
  refine ⟨hplain key yiiConf h, ?_, ?_, ?_, ?_, ?_, ?_, ?_⟩
  · exact hexDigits_isLowerHex _ _
  · unfold sprintfHexUint32
    rw [hmod]
    exact hexValue_hexDigits 8 _ (by simpa using hlt)
  · exact hexDigits_length_pos 7 _
  · exact hexDigits_length_le 8 _
  · intro hpos
    unfold sprintfHexUint32
    rw [hmod]
    exact hexDigits_head 8 _ (by simpa using hlt) hpos
  · intro other ho ha
    rw [hplain key other ho, hplain key yiiConf h, ha]
  · intro key2 hk heq
    rw [hplain key2 yiiConf h, hplain key yiiConf h] at heq
    exact hk (List.append_cancel_left heq)

set_option maxRecDepth 100000 in
/-- C1 at the application name `app` and the key `k`: the result is `c96e70cfk`. -/
theorem genYiiKey_plain_witness :
    (⟨str "on", str "app", str "no"⟩ : YiiConfigStruct).Hash ≠ str "yes" ∧
    genYiiKey (str "k") ⟨str "on", str "app", str "no"⟩ = str "c96e70cfk" := by
  have h : (⟨str "on", str "app", str "no"⟩ : YiiConfigStruct).Hash ≠ str "yes" := by decide
  refine ⟨h, ?_⟩
  rw [(genYiiKey_plain (str "k") ⟨str "on", str "app", str "no"⟩ h).1]
  decide

/-- C2. With the secondary hash on (`Hash` equal to `yes`) the result of `genYiiKey`
is the two-digits-per-byte lowercase hexadecimal rendering of the 16-byte MD5 digest
of the intermediate string `hex(crc32(AppName)) ++ key`; it is exactly 32 characters
long and every character is in `[0-9a-f]`. -/
theorem genYiiKey_hashed (key : GoString) (yiiConf : YiiConfigStruct)
    (h : yiiConf.Hash = str "yes") :
    genYiiKey key yiiConf =
      sprintfHexBytes (md5Sum (sprintfHexUint32 (ChecksumIEEE yiiConf.AppName) ++ key)) ∧
    (md5Sum (sprintfHexUint32 (ChecksumIEEE yiiConf.AppName) ++ key)).length * 8 = 128 ∧
    (genYiiKey key yiiConf).length = 32 ∧
    (∀ c ∈ genYiiKey key yiiConf, isLowerHex c) := by
  have he : genYiiKey key yiiConf =
      sprintfHexBytes (md5Sum (sprintfHexUint32 (ChecksumIEEE yiiConf.AppName) ++ key)) := by
    simp [genYiiKey, h]
  refine ⟨he, ?_, ?_, ?_⟩
  · rw [md5Sum_length]
  · rw [he, sprintfHexBytes_length, md5Sum_length]
  · rw [he]; exact sprintfHexBytes_isLowerHex _

set_option maxRecDepth 100000 in
/-- C2 at the application name `app` and the key `k`. -/
theorem genYiiKey_hashed_witness :
    (⟨str "on", str "app", str "yes"⟩ : YiiConfigStruct).Hash = str "yes" ∧
    genYiiKey (str "k") ⟨str "on", str "app", str "yes"⟩ =
      str "fcfe667e9017cbc54786d10f47955acd" ∧
    (genYiiKey (str "k") ⟨str "on", str "app", str "yes"⟩).length = 32 := by
  have h : (⟨str "on", str "app", str "yes"⟩ : YiiConfigStruct).Hash = str "yes" := rfl
  refine ⟨h, ?_, (genYiiKey_hashed (str "k") ⟨str "on", str "app", str "yes"⟩ h).2.2.1⟩
  decide

/-! ## Claims on the statistics -/

/-- C6. For an uptime that is not negative, `formatUptime` renders four numbers
`D`, `H`, `M`, `S` with `D*86400 + H*3600 + M*60 + S = uptime`, `0 ≤ H < 24`,
`0 ≤ M < 60` and `0 ≤ S < 60`; no other four numbers within these bounds add up to
the uptime; and 90061 renders as `1天1时1分1秒`. -/
theorem formatUptime_split (uptime : Int) (h : 0 ≤ uptime) :
    (∃ D H M S : Int,
      formatUptime uptime =
        sprintfDec D ++ str "天" ++ sprintfDec H ++ str "时" ++
          sprintfDec M ++ str "分" ++ sprintfDec S ++ str "秒" ∧
      D * 86400 + H * 3600 + M * 60 + S = uptime ∧
      0 ≤ D ∧ 0 ≤ H ∧ H < 24 ∧ 0 ≤ M ∧ M < 60 ∧ 0 ≤ S ∧ S < 60 ∧
      ∀ D2 H2 M2 S2 : Int, D2 * 86400 + H2 * 3600 + M2 * 60 + S2 = uptime →
        0 ≤ H2 → H2 < 24 → 0 ≤ M2 → M2 < 60 → 0 ≤ S2 → S2 < 60 →
        D2 = D ∧ H2 = H ∧ M2 = M ∧ S2 = S) ∧
    formatUptime 90061 = str "1天1时1分1秒" := by
  refine ⟨⟨uptime.tdiv 86400, (uptime.tmod 86400).tdiv 3600, (uptime.tmod 3600).tdiv 60,
    uptime.tmod 60, rfl, ?_⟩, by decide⟩
  have h1 : uptime.tdiv 86400 = uptime / 86400 := Int.tdiv_eq_ediv h (by decide)
  have h2 : uptime.tmod 86400 = uptime % 86400 := Int.tmod_eq_emod h (by decide)
  have h3 : uptime.tmod 3600 = uptime % 3600 := Int.tmod_eq_emod h (by decide)
  have h4 : uptime.tmod 60 = uptime % 60 := Int.tmod_eq_emod h (by decide)
  have h5 : (uptime % 86400).tdiv 3600 = uptime % 86400 / 3600 :=
    Int.tdiv_eq_ediv (Int.emod_nonneg _ (by decide)) (by decide)
  have h6 : (uptime % 3600).tdiv 60 = uptime % 3600 / 60 :=
    Int.tdiv_eq_ediv (Int.emod_nonneg _ (by decide)) (by decide)
  rw [h2, h3, h1, h4, h5, h6]
  refine ⟨by omega, by omega, by omega, by omega, by omega, by omega, by omega, by omega, ?_⟩
  intro D2 H2 M2 S2 hsum hH0 hH1 hM0 hM1 hS0 hS1
  refine ⟨by omega, by omega, by omega, by omega⟩

/-- C6 at the uptime 90061, one day, one hour, one minute and one second. -/
theorem formatUptime_split_witness :
    (0 : Int) ≤ 90061 ∧ formatUptime 90061 = str "1天1时1分1秒" :=
  ⟨by decide, (formatUptime_split 90061 (by decide)).2⟩

set_option maxRecDepth 100000 in
/-- C7. On the mapping with `uptime` 90061, `limit_maxbytes` 1048576 and `bytes` 2048
the uptime is `1天1时1分1秒`, the memory limit `1.00MB (1024.00KB)` and the memory
usage `0.00MB (2.00KB)`; and on every mapping the fields `Pid`, `Version`,
`CurrItems`, `CurrConnections`, `GetHits` and `GetMisses` are the mapping's values
for `pid`, `version`, `curr_items`, `curr_connections`, `get_hits` and `get_misses`,
unchanged, and empty when the key is absent. -/
theorem statsMap2Struct_fields (statsMapper : GoMap GoString) :
    (statsMap2Struct [(str "uptime", str "90061"), (str "limit_maxbytes", str "1048576"),
        (str "bytes", str "2048")]).Uptime = str "1天1时1分1秒" ∧
    (statsMap2Struct [(str "uptime", str "90061"), (str "limit_maxbytes", str "1048576"),
        (str "bytes", str "2048")]).MaxMemoryLimit = str "1.00MB (1024.00KB)" ∧
    (statsMap2Struct [(str "uptime", str "90061"), (str "limit_maxbytes", str "1048576"),
        (str "bytes", str "2048")]).CurrMemoryUsage = str "0.00MB (2.00KB)" ∧
    (statsMap2Struct statsMapper).Pid = (statsMapper.get? (str "pid")).getD [] ∧
    (statsMap2Struct statsMapper).Version = (statsMapper.get? (str "version")).getD [] ∧
    (statsMap2Struct statsMapper).CurrItems = (statsMapper.get? (str "curr_items")).getD [] ∧
    (statsMap2Struct statsMapper).CurrConnections =
      (statsMapper.get? (str "curr_connections")).getD [] ∧
    (statsMap2Struct statsMapper).GetHits = (statsMapper.get? (str "get_hits")).getD [] ∧
    (statsMap2Struct statsMapper).GetMisses = (statsMapper.get? (str "get_misses")).getD [] := by
  refine ⟨by decide, by decide, by decide, rfl, rfl, rfl, rfl, rfl, rfl⟩

/-! ## Claims on `Do` -/

/-- C8. The command check `validAction` accepts exactly the four strings `get`, `set`,
`delete` and `flush_all`; and for a request whose action it rejects, `Do` writes a
failure body, calls no collaborator (no connection is opened, no cache command is
issued) and leaves the outside world as it was. -/
theorem validAction_gate {σ : Type} (a : GoString) (env : Env σ) (c : Context) (w : σ) :
    (validAction a = true ↔
      a = str "get" ∨ a = str "set" ∨ a = str "delete" ∨ a = str "flush_all") ∧
    (validAction (c.PostForm (str "action")) = false →
      (∃ msg, (Do env c w).response = Except.ok (some (Response.failure msg))) ∧
      (Do env c w).trace = [] ∧ (Do env c w).world = w) := by
  constructor
  · simp [validAction, actionAllowed]
  · intro h
    unfold Do
    simp only []
    split
    · exact ⟨⟨_, rfl⟩, rfl, rfl⟩
    · rw [if_pos h]
      exact ⟨⟨_, rfl⟩, rfl, rfl⟩

set_option maxRecDepth 100000 in
/-- C8 at the action `GET`, which differs from `get` by case only. -/
theorem validAction_gate_witness :
    validAction (str "GET") = false ∧ validAction (str "get ") = false ∧
    (Do quietEnv ⟨oneServer ⟨str "off", [], []⟩,
      [(str "server", str "localhost:11211"), (str "action", str "GET")]⟩ ()).trace = [] := by
  refine ⟨by decide, by decide, ?_⟩
  exact ((validAction_gate (str "GET") quietEnv ⟨oneServer ⟨str "off", [], []⟩,
      [(str "server", str "localhost:11211"), (str "action", str "GET")]⟩ ()).2
      (by decide)).2.1

theorem validAction_get : validAction (str "get") = true := by decide
theorem validAction_set : validAction (str "set") = true := by decide
theorem validAction_delete : validAction (str "delete") = true := by decide
theorem set_ne_get : str "set" ≠ str "get" := by decide
theorem delete_ne_get : str "delete" ≠ str "get" := by decide
theorem delete_ne_set : str "delete" ≠ str "set" := by decide

/-- The `get` branch of `Do`, once the server is known and the connection is open. -/
theorem get_branch {σ : Type} (env : Env σ) (c : Context) (w w1 : σ) (cfg : ServerConfigStruct)
    (evs : List Event)
    (hs : c.app_conf.Servers.get? (c.PostForm (str "server")) = some cfg)
    (ha : c.PostForm (str "action") = str "get")
    (hn : newMemcached env (c.PostForm (str "server")) w = Except.ok (none, evs, w1)) :
    Do env c w =
      match (env.Get (specKey cfg (c.PostForm (str "key"))) w1).1 with
      | Except.error e =>
        ⟨Except.ok (some (Response.failure (str "获取缓存数据失败：" ++ e))),
          evs ++ [Event.Get (specKey cfg (c.PostForm (str "key"))), Event.Close],
          env.Close (env.Get (specKey cfg (c.PostForm (str "key"))) w1).2⟩
      | Except.ok resp =>
        ⟨(decodeGet env (decide (cfg.Yii.Status = str "on")) resp).1.map
            (fun data => some (Response.success data)),
          evs ++ Event.Get (specKey cfg (c.PostForm (str "key"))) ::
            (decodeGet env (decide (cfg.Yii.Status = str "on")) resp).2 ++ [Event.Close],
          env.Close (env.Get (specKey cfg (c.PostForm (str "key"))) w1).2⟩ := by
  unfold Do
  simp only [hs, ha, hn, validAction_get, specKey]
  simp

/-- The expiry `Do` hands to `Set` for the form of `c`. -/
theorem set_branch {σ : Type} (env : Env σ) (c : Context) (w w1 : σ) (cfg : ServerConfigStruct)
    (evs : List Event)
    (hs : c.app_conf.Servers.get? (c.PostForm (str "server")) = some cfg)
    (ha : c.PostForm (str "action") = str "set")
    (hn : newMemcached env (c.PostForm (str "server")) w = Except.ok (none, evs, w1)) :
    (Do env c w).trace =
      evs ++ [Event.Set ⟨specKey cfg (c.PostForm (str "key")), c.PostForm (str "value"),
        if (Atoi (c.DefaultPostForm (str "exp_time") (str "0"))).2 ≠ none then 0
        else (Atoi (c.DefaultPostForm (str "exp_time") (str "0"))).1⟩, Event.Close] := by
  unfold Do
  simp only [hs, ha, hn, validAction_set, specKey, set_ne_get]
  simp only [Bool.true_eq_false, if_false, if_true]
  split <;> simp

/-- The `delete` branch of `Do`, once the server is known and the connection is open. -/
theorem delete_branch {σ : Type} (env : Env σ) (c : Context) (w w1 : σ) (cfg : ServerConfigStruct)
    (evs : List Event)
    (hs : c.app_conf.Servers.get? (c.PostForm (str "server")) = some cfg)
    (ha : c.PostForm (str "action") = str "delete")
    (hn : newMemcached env (c.PostForm (str "server")) w = Except.ok (none, evs, w1)) :
    (Do env c w).trace =
      evs ++ [Event.Delete (specKey cfg (c.PostForm (str "key"))), Event.Close] := by
  unfold Do
  simp only [hs, ha, hn, validAction_delete, specKey, delete_ne_get, delete_ne_set]
  simp only [Bool.true_eq_false, if_false, if_true]
  split <;> simp

/-- A connection that opens has made one call, `New`. -/
theorem newMemcached_events {σ : Type} (env : Env σ) (server : GoString) (w w1 : σ)
    (err : Option GoString) (evs : List Event)
    (hn : newMemcached env server w = Except.ok (err, evs, w1)) :
    ∃ host port, evs = [Event.New host port] := by
  unfold newMemcached at hn
  simp only [] at hn
  split at hn
  · cases hn
  · split at hn
    · cases hn
    · simp only [Except.ok.injEq, Prod.mk.injEq] at hn
      exact ⟨_, _, hn.2.1.symm⟩

/-- The Yii step calls the JSON decoder only. -/
theorem extractYiiJson_events {σ : Type} (env : Env σ) (useYii : Bool) (data data1 : Value)
    (evs : List Event) (h : extractYiiJson env useYii data = Except.ok (data1, evs)) :
    ∀ e ∈ evs, ∃ s, e = Event.Unmarshal s := by
  unfold extractYiiJson at h
  split at h
  · split at h
    · split at h
      · split at h
        · cases h
        · split at h
          · split at h
            · cases h
            · split at h
              · split at h
                · cases h; intro e he; simp at he; exact ⟨_, he⟩
                · cases h; intro e he; simp at he; exact ⟨_, he⟩
              · cases h; intro e he; simp at he
          · cases h
      · cases h; intro e he; simp at he
    · cases h
  · cases h; intro e he; simp at he

/-- The decoding of a response sends no command to the cache server. -/
theorem decodeGet_events {σ : Type} (env : Env σ) (useYii : Bool) (resp : GoString) :
    ∀ e ∈ (decodeGet env useYii resp).2, e.isCommand = false := by
  unfold decodeGet
  split
  · split
    · intro e he; simp at he; subst he; rfl
    · rename_i data hd
      split
      · intro e he; simp at he; subst he; rfl
      · rename_i data1 evs hx
        intro e he
        simp only [List.mem_cons] at he
        rcases he with he | he
        · subst he; rfl
        · obtain ⟨s, hs⟩ := extractYiiJson_events env useYii data data1 evs hx e he
          subst hs; rfl
  · intro e he; simp at he

/-- C3. Once the server is known and the connection is open, the `get`, the `set` and
the `delete` branch of `Do` each send one command to the cache, and its key is
derived in the same way in all three: `genYiiKey` of the form key when the Yii mode
of the server is on, the form key unchanged otherwise.  So a `set` and a later `get`
or `delete` with the same form key and configuration address the same cache key. -/
theorem Do_key_uniform {σ : Type} (env : Env σ) (c : Context) (w w1 : σ)
    (cfg : ServerConfigStruct) (evs : List Event)
    (hs : c.app_conf.Servers.get? (c.PostForm (str "server")) = some cfg)
    (hn : newMemcached env (c.PostForm (str "server")) w = Except.ok (none, evs, w1)) :
    (c.PostForm (str "action") = str "get" →
      (Do env c w).trace.filter Event.isCommand =
        [Event.Get (if cfg.Yii.Status = str "on"
          then genYiiKey (c.PostForm (str "key")) cfg.Yii else c.PostForm (str "key"))]) ∧
    (c.PostForm (str "action") = str "set" →
      ∃ expire_time, (Do env c w).trace.filter Event.isCommand =
        [Event.Set ⟨if cfg.Yii.Status = str "on"
          then genYiiKey (c.PostForm (str "key")) cfg.Yii else c.PostForm (str "key"),
          c.PostForm (str "value"), expire_time⟩]) ∧
    (c.PostForm (str "action") = str "delete" →
      (Do env c w).trace.filter Event.isCommand =
        [Event.Delete (if cfg.Yii.Status = str "on"
          then genYiiKey (c.PostForm (str "key")) cfg.Yii else c.PostForm (str "key"))]) := by
  obtain ⟨host, port, hevs⟩ := newMemcached_events env _ w w1 none evs hn
  refine ⟨?_, ?_, ?_⟩
  · intro ha
    rw [get_branch env c w w1 cfg evs hs ha hn]
    have hd : ∀ resp, (decodeGet env (decide (cfg.Yii.Status = str "on")) resp).2.filter
        Event.isCommand = [] := by
      intro resp
      rw [List.filter_eq_nil_iff]
      intro e he
      simp [decodeGet_events env _ resp e he]
    split
    · simp [hevs, List.filter, Event.isCommand, specKey]
    · rename_i resp _
      simp [hevs, List.filter_append, List.filter_cons, Event.isCommand, specKey, hd resp]
  · intro ha
    refine ⟨if (Atoi (c.DefaultPostForm (str "exp_time") (str "0"))).2 ≠ none then 0
        else (Atoi (c.DefaultPostForm (str "exp_time") (str "0"))).1, ?_⟩
    rw [set_branch env c w w1 cfg evs hs ha hn]
    simp [hevs, List.filter, Event.isCommand, specKey]
  · intro ha
    rw [delete_branch env c w w1 cfg evs hs ha hn]
    simp [hevs, List.filter, Event.isCommand, specKey]

set_option maxRecDepth 100000 in
/-- C3 on a server in Yii mode: `set`, `get` and `delete` of the form key `k` all
address the cache key `c96e70cfk`. -/
theorem Do_key_uniform_witness :
    (Do quietEnv ⟨oneServer ⟨str "on", str "app", str "no"⟩,
      [(str "server", str "localhost:11211"), (str "action", str "set"),
        (str "key", str "k"), (str "value", str "v")]⟩ ()).trace.filter Event.isCommand =
      [Event.Set ⟨str "c96e70cfk", str "v", 0⟩] ∧
    (Do quietEnv ⟨oneServer ⟨str "on", str "app", str "no"⟩,
      [(str "server", str "localhost:11211"), (str "action", str "get"),
        (str "key", str "k")]⟩ ()).trace.filter Event.isCommand =
      [Event.Get (str "c96e70cfk")] ∧
    (Do quietEnv ⟨oneServer ⟨str "on", str "app", str "no"⟩,
      [(str "server", str "localhost:11211"), (str "action", str "delete"),
        (str "key", str "k")]⟩ ()).trace.filter Event.isCommand =
      [Event.Delete (str "c96e70cfk")] := by
  refine ⟨by decide, ?_, ?_⟩
  · have h := (Do_key_uniform quietEnv ⟨oneServer ⟨str "on", str "app", str "no"⟩,
      [(str "server", str "localhost:11211"), (str "action", str "get"),
        (str "key", str "k")]⟩ () () ⟨str "local", ⟨str "on", str "app", str "no"⟩⟩
      [Event.New (str "localhost") 11211] (by decide) (by rfl)).1 (by decide)
    rw [h]
    decide
  · have h := (Do_key_uniform quietEnv ⟨oneServer ⟨str "on", str "app", str "no"⟩,
      [(str "server", str "localhost:11211"), (str "action", str "delete"),
        (str "key", str "k")]⟩ () () ⟨str "local", ⟨str "on", str "app", str "no"⟩⟩
      [Event.New (str "localhost") 11211] (by decide) (by rfl)).2.2 (by decide)
    rw [h]
    decide

/-- The test of line 192 in the words of the specification. -/
theorem sniff_iff (resp : GoString) :
    (resp.length > 2 ∧ resp[0]? = some 97 ∧ resp[1]? = some 58) ↔
      (2 < resp.length ∧ resp.take 2 = [97, 58]) := by
  match resp with
  | [] => simp
  | [a] => simp
  | a :: b :: t => simp

/-- The parser is called once on a response that passes the test, and not otherwise. -/
theorem decodeGet_parse {σ : Type} (env : Env σ) (useYii : Bool) (resp : GoString) :
    (decodeGet env useYii resp).2.filter Event.isParse =
      if 2 < resp.length ∧ resp.take 2 = [97, 58] then [Event.Parse resp] else [] := by
  unfold decodeGet
  by_cases hc : resp.length > 2 ∧ resp[0]? = some 97 ∧ resp[1]? = some 58
  · rw [if_pos hc, if_pos ((sniff_iff resp).1 hc)]
    split
    · simp [List.filter, Event.isParse]
    · rename_i data hd
      split
      · simp [List.filter, Event.isParse]
      · rename_i data1 evs hx
        have he := extractYiiJson_events env useYii data data1 evs hx
        have hnil : evs.filter Event.isParse = [] := by
          rw [List.filter_eq_nil_iff]
          intro e hmem
          obtain ⟨s, hs⟩ := he e hmem
          subst hs; simp [Event.isParse]
        simp [List.filter_cons, Event.isParse, hnil]
  · rw [if_neg hc, if_neg (fun h => hc ((sniff_iff resp).2 h))]
    rfl

/-- A response that fails the test is handed on as it is. -/
theorem decodeGet_plain {σ : Type} (env : Env σ) (useYii : Bool) (resp : GoString)
    (h : ¬ (2 < resp.length ∧ resp.take 2 = [97, 58])) :
    decodeGet env useYii resp = (Except.ok (Value.string resp), []) := by
  unfold decodeGet
  rw [if_neg (fun hc => h ((sniff_iff resp).1 hc))]

set_option maxRecDepth 100000 in
/-- C4 as stated fails on the two-byte response `a:`: its first two bytes are `a` and
`:`, yet `Do` does not call the parser and hands the response on as a string. -/
theorem sniff_rejects_two_bytes :
    (str "a:").take 2 = [97, 58] ∧
    (Do (cannedEnv (str "a:") Value.null) ⟨oneServer ⟨str "off", [], []⟩, getForm⟩ ()).trace =
      [Event.New (str "localhost") 11211, Event.Get (str "k"), Event.Close] ∧
    (Do (cannedEnv (str "a:") Value.null) ⟨oneServer ⟨str "off", [], []⟩, getForm⟩ ()).response =
      Except.ok (some (Response.success (Value.string (str "a:")))) := by
  refine ⟨by decide, by decide, by rfl⟩

/-- C4, amended. In the `get` branch of `Do`, for every response of the client, the
parser is called (once, on the response) exactly when the response is longer than two
bytes and its first two bytes are `a` and `:`; every other response, the empty one and
the two-byte `a:` included, is returned as a string equal to the response. -/
theorem Do_get_sniff {σ : Type} (env : Env σ) (c : Context) (w w1 : σ)
    (cfg : ServerConfigStruct) (evs : List Event) (resp : GoString)
    (hs : c.app_conf.Servers.get? (c.PostForm (str "server")) = some cfg)
    (ha : c.PostForm (str "action") = str "get")
    (hn : newMemcached env (c.PostForm (str "server")) w = Except.ok (none, evs, w1))
    (hg : (env.Get (specKey cfg (c.PostForm (str "key"))) w1).1 = Except.ok resp) :
    (Do env c w).trace.filter Event.isParse =
      (if 2 < resp.length ∧ resp.take 2 = [97, 58] then [Event.Parse resp] else []) ∧
    (¬ (2 < resp.length ∧ resp.take 2 = [97, 58]) →
      (Do env c w).response = Except.ok (some (Response.success (Value.string resp)))) := by
  obtain ⟨host, port, hevs⟩ := newMemcached_events env _ w w1 none evs hn
  rw [get_branch env c w w1 cfg evs hs ha hn, hg]
  constructor
  · simp only [List.filter_append, List.filter_cons, decodeGet_parse, hevs, Event.isParse]
    simp
  · intro h
    simp only [decodeGet_plain env _ resp h]
    rfl

set_option maxRecDepth 100000 in
/-- C4, amended, on the responses `a:1:` and `a:`. -/
theorem Do_get_sniff_witness :
    (Do (cannedEnv (str "a:1:") Value.null) ⟨oneServer ⟨str "off", [], []⟩, getForm⟩
      ()).trace.filter Event.isParse = [Event.Parse (str "a:1:")] ∧
    (Do (cannedEnv (str "a:") Value.null) ⟨oneServer ⟨str "off", [], []⟩, getForm⟩
      ()).trace.filter Event.isParse = [] := by
  have h1 := (Do_get_sniff (cannedEnv (str "a:1:") Value.null)
    ⟨oneServer ⟨str "off", [], []⟩, getForm⟩ () () ⟨str "local", ⟨str "off", [], []⟩⟩
    [Event.New (str "localhost") 11211] (str "a:1:") (by decide) (by decide) (by rfl) (by rfl)).1
  have h2 := (Do_get_sniff (cannedEnv (str "a:") Value.null)
    ⟨oneServer ⟨str "off", [], []⟩, getForm⟩ () () ⟨str "local", ⟨str "off", [], []⟩⟩
    [Event.New (str "localhost") 11211] (str "a:") (by decide) (by decide) (by rfl) (by rfl)).1
  rw [h1, h2]
  exact ⟨by decide, by decide⟩

set_option maxRecDepth 100000 in
/-- C9 fails on the code.  With the Yii mode on, the Yii step of the `get` branch
raises a run-time fault on a two-element array whose first element is the empty
string (index out of range), on a two-element array whose first element is not a
string, and on a value that is not an array (failed type assertions); `Do` ends in
that fault for the response `a:2:{i:0;s:0:"";i:1;N;}`. -/
theorem extractYiiJson_faults {σ : Type} (env : Env σ) (second : Value) :
    extractYiiJson env true (Value.slice [Value.string [], second]) =
      Except.error Panic.indexOutOfRange ∧
    extractYiiJson env true (Value.slice [Value.int 1, second]) =
      Except.error Panic.typeAssertion ∧
    extractYiiJson env true (Value.map []) = Except.error Panic.typeAssertion ∧
    extractYiiJson env true Value.null = Except.error Panic.typeAssertion ∧
    (Do (cannedEnv (str "a:2:\x7bi:0;s:0:\"\";i:1;N;\x7d")
        (Value.slice [Value.string [], Value.null]))
      ⟨oneServer ⟨str "on", str "app", str "no"⟩, getForm⟩ ()).response =
      Except.error Panic.indexOutOfRange := by
  refine ⟨rfl, rfl, rfl, rfl, by rfl⟩

set_option maxRecDepth 100000 in
/-- C10 fails on the code.  For the server string `localhost`, which has no `:`,
`newMemcached` raises an index-out-of-range fault; for `localhost:abc` and for
`localhost:`, whose port is not a number or is missing, it reports no error of its
own and hands port 0 to the client. -/
theorem newMemcached_faults {σ : Type} (env : Env σ) (w : σ) :
    newMemcached env (str "localhost") w = Except.error Panic.indexOutOfRange ∧
    newMemcached env (str "localhost:abc") w =
      Except.ok ((env.New (str "localhost") 0 w).1, [Event.New (str "localhost") 0],
        (env.New (str "localhost") 0 w).2) ∧
    newMemcached env (str "localhost:") w =
      Except.ok ((env.New (str "localhost") 0 w).1, [Event.New (str "localhost") 0],
        (env.New (str "localhost") 0 w).2) := by
  refine ⟨by rfl, by rfl, by rfl⟩

/-! ## `strconv.Atoi` against the decimal integers -/

theorem digits_foldl_ge (ds : List Byte) (n : Nat) :
    n ≤ ds.foldl (fun acc c => acc * 10 + (c.val - 48)) n := by
  induction ds generalizing n with
  | nil => simp
  | cons c rest ih =>
    simp only [List.foldl_cons]
    exact Nat.le_trans (by omega) (ih _)

theorem parseUintLoop_digits (ds : List Byte) (n : Nat) (hd : ds.all isDigit = true)
    (hn : n ≤ maxUint64) :
    parseUintLoop n ds =
      if ds.foldl (fun acc c => acc * 10 + (c.val - 48)) n ≤ maxUint64
      then (ds.foldl (fun acc c => acc * 10 + (c.val - 48)) n, none)
      else (maxUint64, some NumError.ErrRange) := by
  induction ds generalizing n with
  | nil => simp [parseUintLoop, hn]
  | cons c rest ih =>
    simp only [List.all_cons, Bool.and_eq_true] at hd
    have hc : 48 ≤ c.val ∧ c.val ≤ 57 := by simpa [isDigit] using hd.1
    have hge := digits_foldl_ge rest (n * 10 + (c.val - 48))
    simp only [parseUintLoop, List.foldl_cons, if_pos hc]
    by_cases h1 : n ≥ maxUint64 / 10 + 1
    · rw [if_pos h1, if_neg]
      have : maxUint64 / 10 + 1 = 1844674407370955162 := by decide
      have : maxUint64 = 18446744073709551615 := by decide
      omega
    · rw [if_neg h1]
      by_cases h2 : n * 10 + (c.val - 48) > maxUint64
      · rw [if_pos h2, if_neg]
        omega
      · rw [if_neg h2]
        exact ih _ hd.2 (by omega)

theorem parseUintLoop_nondigit (ds : List Byte) (n : Nat) (hd : ds.all isDigit = false) :
    (parseUintLoop n ds).2 ≠ none := by
  induction ds generalizing n with
  | nil => simp at hd
  | cons c rest ih =>
    unfold parseUintLoop
    by_cases hc : 48 ≤ c.val ∧ c.val ≤ 57
    · rw [if_pos hc]
      have hr : rest.all isDigit = false := by
        have : isDigit c = true := by simpa [isDigit] using hc
        simpa [List.all_cons, this] using hd
      split
      · simp
      · split
        · simp
        · exact ih _ hr
    · rw [if_neg hc]; simp

theorem ParseInt_cons (c : Byte) (rest : GoString) :
    ParseInt (c :: rest) =
      match ParseUint (if c = 43 ∨ c = 45 then rest else c :: rest) with
      | (_, some NumError.ErrSyntax) => (0, some NumError.ErrSyntax)
      | (un, _) =>
        if !(decide (c = 45)) && un ≥ 2 ^ 63 then ((2 : Int) ^ 63 - 1, some NumError.ErrRange)
        else if decide (c = 45) && un > 2 ^ 63 then (-(2 : Int) ^ 63, some NumError.ErrRange)
        else (if decide (c = 45) then -(un : Int) else (un : Int), none) := rfl

/-- The unsigned stage on a non-empty body. -/
theorem ParseUint_digits (body : GoString) (hne : body ≠ []) (hd : body.all isDigit = true) :
    ParseUint body =
      if digitsValue body ≤ maxUint64 then (digitsValue body, none)
      else (maxUint64, some NumError.ErrRange) := by
  cases body with
  | nil => exact absurd rfl hne
  | cons c rest =>
    have := parseUintLoop_digits (c :: rest) 0 hd (Nat.zero_le _)
    simpa [ParseUint, digitsValue] using this

theorem ParseUint_nondigit (body : GoString) (hd : body = [] ∨ body.all isDigit = false) :
    (ParseUint body).2 ≠ none := by
  cases body with
  | nil => simp [ParseUint]
  | cons c rest =>
    rcases hd with hd | hd
    · cases hd
    · exact parseUintLoop_nondigit (c :: rest) 0 hd

/-- The signed stage, given the outcome of the unsigned stage on digits. -/
theorem ParseInt_of_digits (c : Byte) (rest body : GoString)
    (hb : body = if c = 43 ∨ c = 45 then rest else c :: rest)
    (hne : body ≠ []) (hd : body.all isDigit = true) :
    (if c = 45 then digitsValue body ≤ 2 ^ 63 else digitsValue body < 2 ^ 63) →
      ParseInt (c :: rest) =
        (if c = 45 then -(digitsValue body : Int) else (digitsValue body : Int), none) := by
  intro hr
  have hm : maxUint64 = 18446744073709551615 := by decide
  rw [ParseInt_cons, ← hb, ParseUint_digits body hne hd]
  by_cases h45 : c = 45
  · simp only [h45, if_true] at hr ⊢
    rw [if_pos (by omega)]
    simp
    omega
  · simp only [h45, if_false] at hr ⊢
    rw [if_pos (by omega)]
    simp
    omega

theorem ParseInt_of_digits_range (c : Byte) (rest body : GoString)
    (hb : body = if c = 43 ∨ c = 45 then rest else c :: rest)
    (hne : body ≠ []) (hd : body.all isDigit = true) :
    ¬ (if c = 45 then digitsValue body ≤ 2 ^ 63 else digitsValue body < 2 ^ 63) →
      (ParseInt (c :: rest)).2 ≠ none := by
  intro hr
  have hm : maxUint64 = 18446744073709551615 := by decide
  rw [ParseInt_cons, ← hb, ParseUint_digits body hne hd]
  by_cases h45 : c = 45
  · simp only [h45, if_true] at hr ⊢
    by_cases hV : digitsValue body ≤ maxUint64
    · rw [if_pos hV]
      have : 9223372036854775808 < digitsValue body := by omega
      simp [this]
    · rw [if_neg hV]
      simp [hm]
  · simp only [h45, if_false] at hr ⊢
    by_cases hV : digitsValue body ≤ maxUint64
    · rw [if_pos hV]
      have : 9223372036854775808 ≤ digitsValue body := by omega
      simp [this]
    · rw [if_neg hV]
      simp [hm]

theorem parseUintLoop_range (ds : List Byte) (n : Nat)
    (h : (parseUintLoop n ds).2 = some NumError.ErrRange) :
    (parseUintLoop n ds).1 = maxUint64 := by
  induction ds generalizing n with
  | nil => simp [parseUintLoop] at h
  | cons c rest ih =>
    unfold parseUintLoop at h ⊢
    split at h
    · rename_i hc
      rw [if_pos hc]
      split at h
      · rename_i h1; rw [if_pos h1]
      · rename_i h1
        rw [if_neg h1]
        split at h
        · rename_i h2; rw [if_pos h2]
        · rename_i h2; rw [if_neg h2]; exact ih _ h
    · simp at h

theorem ParseUint_range (body : GoString) (h : (ParseUint body).2 = some NumError.ErrRange) :
    (ParseUint body).1 = maxUint64 := by
  cases body with
  | nil => simp [ParseUint] at h
  | cons c rest => exact parseUintLoop_range (c :: rest) 0 h

theorem ParseInt_error (c : Byte) (rest : GoString)
    (h : (ParseUint (if c = 43 ∨ c = 45 then rest else c :: rest)).2 ≠ none) :
    (ParseInt (c :: rest)).2 ≠ none := by
  rw [ParseInt_cons]
  have hm : maxUint64 = 18446744073709551615 := by decide
  generalize hp : ParseUint (if c = 43 ∨ c = 45 then rest else c :: rest) = p at h
  have hrange := ParseUint_range (if c = 43 ∨ c = 45 then rest else c :: rest)
  rw [hp] at hrange
  obtain ⟨un, e⟩ := p
  cases e with
  | none => exact absurd rfl h
  | some e =>
    cases e with
    | ErrSyntax => simp
    | ErrRange =>
      have hu : un = 18446744073709551615 := by
        have := hrange rfl
        simpa [hm] using this
      subst hu
      by_cases h45 : c = 45 <;> simp [h45]

/-- On a decimal integer within the range of `int`, `Atoi` returns its value and
no error. -/
theorem Atoi_decimal (s : GoString) (hd : isDecimalInt s = true)
    (hlo : -(2 : Int) ^ 63 ≤ decimalValue s) (hhi : decimalValue s < (2 : Int) ^ 63) :
    Atoi s = (decimalValue s, none) := by
  cases s with
  | nil => simp [isDecimalInt] at hd
  | cons c rest =>
    unfold Atoi
    by_cases hsign : c = 43 ∨ c = 45
    · simp only [isDecimalInt, if_pos hsign] at hd
      have hd2 : rest ≠ [] ∧ rest.all isDigit = true := by simpa using hd
      rw [ParseInt_of_digits c rest rest (by rw [if_pos hsign]) hd2.1 hd2.2]
      · by_cases h45 : c = 45
        · simp [decimalValue, h45]
        · have h43 : c = 43 := by rcases hsign with h | h; exact h; exact absurd h h45
          simp [decimalValue, h43]
      · by_cases h45 : c = 45
        · subst h45
          simp [decimalValue] at hlo ⊢
          omega
        · have h43 : c = 43 := by rcases hsign with h | h; exact h; exact absurd h h45
          subst h43
          simp [decimalValue] at hhi ⊢
          omega
    · simp only [isDecimalInt, if_neg hsign] at hd
      have h45 : c ≠ 45 := fun h => hsign (Or.inr h)
      have h43 : c ≠ 43 := fun h => hsign (Or.inl h)
      rw [ParseInt_of_digits c rest (c :: rest) (by rw [if_neg hsign]) (by simp) hd]
      · simp [decimalValue, h45, h43]
      · simp only [decimalValue, h45, h43, if_false] at hhi ⊢
        omega

/-- On anything else `Atoi` returns an error. -/
theorem Atoi_error (s : GoString)
    (h : ¬ (isDecimalInt s = true ∧ -(2 : Int) ^ 63 ≤ decimalValue s ∧
      decimalValue s < (2 : Int) ^ 63)) :
    (Atoi s).2 ≠ none := by
  cases s with
  | nil => simp [Atoi, ParseInt]
  | cons c rest =>
    unfold Atoi
    by_cases hsign : c = 43 ∨ c = 45
    · by_cases hd : rest ≠ [] ∧ rest.all isDigit = true
      · apply ParseInt_of_digits_range c rest rest (by rw [if_pos hsign]) hd.1 hd.2
        intro hr
        apply h
        have hdec : isDecimalInt (c :: rest) = true := by
          simp only [isDecimalInt, if_pos hsign]; simpa using hd
        refine ⟨hdec, ?_⟩
        by_cases h45 : c = 45
        · subst h45
          simp [decimalValue] at hr ⊢
          omega
        · have h43 : c = 43 := by rcases hsign with h | h; exact h; exact absurd h h45
          subst h43
          simp [decimalValue] at hr ⊢
          omega
      · apply ParseInt_error
        rw [if_pos hsign]
        apply ParseUint_nondigit
        by_cases hne : rest = []
        · exact Or.inl hne
        · right
          cases hall : rest.all isDigit with
          | false => rfl
          | true => exact absurd ⟨hne, hall⟩ hd
    · have h45 : c ≠ 45 := fun h => hsign (Or.inr h)
      have h43 : c ≠ 43 := fun h => hsign (Or.inl h)
      cases hall : (c :: rest).all isDigit with
      | false =>
        apply ParseInt_error
        rw [if_neg hsign]
        exact ParseUint_nondigit _ (Or.inr hall)
      | true =>
        apply ParseInt_of_digits_range c rest (c :: rest) (by rw [if_neg hsign]) (by simp) hall
        intro hr
        apply h
        have hdec : isDecimalInt (c :: rest) = true := by
          simp only [isDecimalInt, if_neg hsign]; exact hall
        refine ⟨hdec, ?_⟩
        simp only [decimalValue, h45, h43, if_false] at hr ⊢
        omega

/-! ## The expiry of `set` -/

theorem withZeroExpiry_server (c : Context) :
    (withZeroExpiry c).PostForm (str "server") = c.PostForm (str "server") := by
  have h : str "server" ≠ str "exp_time" := by decide
  simp [withZeroExpiry, Context.PostForm, GoMap.get?, h]

theorem withZeroExpiry_action (c : Context) :
    (withZeroExpiry c).PostForm (str "action") = c.PostForm (str "action") := by
  have h : str "action" ≠ str "exp_time" := by decide
  simp [withZeroExpiry, Context.PostForm, GoMap.get?, h]

theorem withZeroExpiry_key (c : Context) :
    (withZeroExpiry c).PostForm (str "key") = c.PostForm (str "key") := by
  have h : str "key" ≠ str "exp_time" := by decide
  simp [withZeroExpiry, Context.PostForm, GoMap.get?, h]

theorem withZeroExpiry_value (c : Context) :
    (withZeroExpiry c).PostForm (str "value") = c.PostForm (str "value") := by
  have h : str "value" ≠ str "exp_time" := by decide
  simp [withZeroExpiry, Context.PostForm, GoMap.get?, h]

theorem withZeroExpiry_expiry (c : Context) :
    (withZeroExpiry c).DefaultPostForm (str "exp_time") (str "0") = str "0" := by
  simp [withZeroExpiry, Context.DefaultPostForm, GoMap.get?]

theorem Atoi_zero : Atoi (str "0") = (0, none) := by decide

/-- The trace of a `set` whose `exp_time` field is `0`. -/
theorem set_branch_zero {σ : Type} (env : Env σ) (c : Context) (w w1 : σ)
    (cfg : ServerConfigStruct) (evs : List Event)
    (hs : c.app_conf.Servers.get? (c.PostForm (str "server")) = some cfg)
    (ha : c.PostForm (str "action") = str "set")
    (hn : newMemcached env (c.PostForm (str "server")) w = Except.ok (none, evs, w1)) :
    (Do env (withZeroExpiry c) w).trace =
      evs ++ [Event.Set ⟨specKey cfg (c.PostForm (str "key")), c.PostForm (str "value"), 0⟩,
        Event.Close] := by
  have hs0 : (withZeroExpiry c).app_conf.Servers.get? ((withZeroExpiry c).PostForm (str "server"))
      = some cfg := by rw [withZeroExpiry_server]; exact hs
  have ha0 : (withZeroExpiry c).PostForm (str "action") = str "set" := by
    rw [withZeroExpiry_action]; exact ha
  have hn0 : newMemcached env ((withZeroExpiry c).PostForm (str "server")) w =
      Except.ok (none, evs, w1) := by rw [withZeroExpiry_server]; exact hn
  rw [set_branch env (withZeroExpiry c) w w1 cfg evs hs0 ha0 hn0, withZeroExpiry_key,
    withZeroExpiry_value, withZeroExpiry_expiry, Atoi_zero]
  simp

set_option maxRecDepth 100000 in
/-- C5 as stated fails on `exp_time = 9223372036854775808`: it is a decimal integer,
the integer 2^63, yet the expiry `Do` hands to `Set` is 0, the integer being out of
the range of `int`. -/
theorem expiry_out_of_range_is_zero :
    isDecimalInt (str "9223372036854775808") = true ∧
    decimalValue (str "9223372036854775808") = 9223372036854775808 ∧
    (Do quietEnv ⟨oneServer ⟨str "off", [], []⟩, setForm (str "9223372036854775808")⟩ ()).trace =
      [Event.New (str "localhost") 11211, Event.Set ⟨str "k", str "v", 0⟩, Event.Close] := by
  refine ⟨by decide, by decide, by decide⟩

/-- C5, amended. In the `set` branch of `Do`: when the `exp_time` field is absent, or
is not a decimal integer within the range of `int` (the empty field, a field that is
not a number, an integer below -2^63 or above 2^63-1), the expiry handed to `Set` is 0
and the whole argument of `Set` is the one built for `exp_time = 0` with the same key
and value; when the field is a decimal integer within the range of `int`, the expiry
is that integer. -/
theorem Do_set_expiry {σ : Type} (env : Env σ) (c : Context) (w w1 : σ)
    (cfg : ServerConfigStruct) (evs : List Event)
    (hs : c.app_conf.Servers.get? (c.PostForm (str "server")) = some cfg)
    (ha : c.PostForm (str "action") = str "set")
    (hn : newMemcached env (c.PostForm (str "server")) w = Except.ok (none, evs, w1)) :
    ((c.postForm.get? (str "exp_time") = none ∨
        ∃ t, c.postForm.get? (str "exp_time") = some t ∧
          ¬ (isDecimalInt t = true ∧ -(2 : Int) ^ 63 ≤ decimalValue t ∧
            decimalValue t < (2 : Int) ^ 63)) →
      (Do env c w).trace =
        evs ++ [Event.Set ⟨if cfg.Yii.Status = str "on"
          then genYiiKey (c.PostForm (str "key")) cfg.Yii else c.PostForm (str "key"),
          c.PostForm (str "value"), 0⟩, Event.Close] ∧
      (Do env c w).trace = (Do env (withZeroExpiry c) w).trace) ∧
    (∀ t, c.postForm.get? (str "exp_time") = some t → isDecimalInt t = true →
      -(2 : Int) ^ 63 ≤ decimalValue t → decimalValue t < (2 : Int) ^ 63 →
      (Do env c w).trace =
        evs ++ [Event.Set ⟨if cfg.Yii.Status = str "on"
          then genYiiKey (c.PostForm (str "key")) cfg.Yii else c.PostForm (str "key"),
          c.PostForm (str "value"), decimalValue t⟩, Event.Close]) := by
  have hset := set_branch env c w w1 cfg evs hs ha hn
  have hzero := set_branch_zero env c w w1 cfg evs hs ha hn
  constructor
  · intro h
    have h0 : (if (Atoi (c.DefaultPostForm (str "exp_time") (str "0"))).2 ≠ none then 0
        else (Atoi (c.DefaultPostForm (str "exp_time") (str "0"))).1) = 0 := by
      rcases h with h | ⟨t, ht, hbad⟩
      · simp [Context.DefaultPostForm, h, Atoi_zero]
      · have he := Atoi_error t hbad
        simp only [Context.DefaultPostForm, ht, Option.getD_some]
        rw [if_pos he]
    rw [hzero, hset, h0]
    exact ⟨rfl, rfl⟩
  · intro t ht hd hlo hhi
    rw [hset]
    simp only [Context.DefaultPostForm, ht, Option.getD_some, Atoi_decimal t hd hlo hhi]
    simp [specKey]

set_option maxRecDepth 100000 in
/-- C5, amended, on the fields `abc`, the empty field and `60`. -/
theorem Do_set_expiry_witness :
    (Do quietEnv ⟨oneServer ⟨str "off", [], []⟩, setForm (str "abc")⟩ ()).trace =
      [Event.New (str "localhost") 11211, Event.Set ⟨str "k", str "v", 0⟩, Event.Close] ∧
    (Do quietEnv ⟨oneServer ⟨str "off", [], []⟩, setForm []⟩ ()).trace =
      (Do quietEnv (withZeroExpiry ⟨oneServer ⟨str "off", [], []⟩, setForm []⟩) ()).trace ∧
    (Do quietEnv ⟨oneServer ⟨str "off", [], []⟩, setForm (str "60")⟩ ()).trace =
      [Event.New (str "localhost") 11211, Event.Set ⟨str "k", str "v", 60⟩, Event.Close] := by
  have h1 := ((Do_set_expiry quietEnv ⟨oneServer ⟨str "off", [], []⟩, setForm (str "abc")⟩ () ()
    ⟨str "local", ⟨str "off", [], []⟩⟩ [Event.New (str "localhost") 11211]
    (by decide) (by decide) (by rfl)).1 (Or.inr ⟨str "abc", by decide, by decide⟩)).1
  have h2 := ((Do_set_expiry quietEnv ⟨oneServer ⟨str "off", [], []⟩, setForm []⟩ () ()
    ⟨str "local", ⟨str "off", [], []⟩⟩ [Event.New (str "localhost") 11211]
    (by decide) (by decide) (by rfl)).1 (Or.inr ⟨[], by decide, by decide⟩)).2
  have h3 := (Do_set_expiry quietEnv ⟨oneServer ⟨str "off", [], []⟩, setForm (str "60")⟩ () ()
    ⟨str "local", ⟨str "off", [], []⟩⟩ [Event.New (str "localhost") 11211]
    (by decide) (by decide) (by rfl)).2 (str "60") (by decide) (by decide) (by decide) (by decide)
  refine ⟨?_, h2, ?_⟩
  · rw [h1]; decide
  · rw [h3]; decide
end Controller
